import Mathlib

/-!
# Keithley S46 RF switch driver (keithley.go)

A shallow embedding of the driver in `src/keithley/keithley.go`.

The driver talks to the instrument through the VISA library
(`github.com/jpoirier/visa`), which is not part of the repository.  The library is
therefore a parameter of every driver operation: a record `Visa` of three
state-passing functions (`Open`, `Write`, `Read`) over an arbitrary state `σ` of the
outside world, together with the constant `vi.SUCCESS`.  Every call the driver makes
on the library is appended, with the reply it got, to a trace, so that statements
such as "exactly seven writes, in this order" can be made about the code.

Go values are embedded as follows.

* `string` and `[]byte` are both byte sequences, `List UInt8`; the conversions
  `[]byte(s)` and `string(b)` are the identity on the bytes.
* `uint32` is `Nat`, with `% 2 ^ 32` written wherever Go arithmetic or a conversion
  to `uint32` could wrap.
* `vi.Status` is `Int`.
* `fmt.Sprintf` with the verb `%d` and an unsigned argument prints the decimal
  digits (`Nat.toDigits 10`); with `%s` it copies the bytes of the string.
-/

namespace S46

/-! ## Go values -/

/-- Go `[]byte`. -/
abbrev Bytes := List UInt8

/-- Go `string`: an immutable sequence of bytes. -/
abbrev GoString := List UInt8

/-- The type `vi.Status`. -/
abbrev Status := Int

/-- The bytes of a string literal of the Go source (UTF-8). -/
def lit (s : String) : Bytes := s.toUTF8.data.toList

/-- The byte of an ASCII character. -/
def byteOf (c : Char) : UInt8 := c.toNat.toUInt8

/-- The verb `%d` of `fmt.Sprintf` at an unsigned integer: its decimal digits. -/
def fmtD (n : Nat) : GoString := (Nat.toDigits 10 n).map byteOf

/-- Conversion `uint32(x)` of a non-negative integer. -/
def toUint32 (x : Nat) : Nat := x % 2 ^ 32

/-- Go `for i := lo; i < hi; i++ { body }` threading a state through the body. -/
def forRange {α : Type} (lo hi : Nat) (body : Nat → α → α) (a : α) : α :=
  (List.range (hi - lo)).foldl (fun acc j => body (lo + j) acc) a

/-! ## The VISA library, as a parameter -/

/-- The operations of `github.com/jpoirier/visa` that the driver uses.  `σ` is the
state of everything behind the library (resource manager, bus, instrument);
`Sess` is `vi.Session` and `Obj` is `vi.Object`. -/
structure Visa (σ Sess Obj : Type) where
  /-- The constant `vi.SUCCESS`. -/
  SUCCESS : Status
  /-- The call `rm.Open(name, mode, timeout)`, returning `(Object, Status)`. -/
  Open : Sess → GoString → Nat → Nat → σ → (Obj × Status) × σ
  /-- The call `instr.Write(b, count)`, returning `(retCount, Status)`. -/
  Write : Obj → Bytes → Nat → σ → (Nat × Status) × σ
  /-- The call `instr.Read(count)`, returning `(buffer, retCount, Status)`. -/
  Read : Obj → Nat → σ → (Bytes × Nat × Status) × σ

/-- A call made on the library, with its arguments. -/
inductive Call (Sess Obj : Type) where
  | sessOpen (rm : Sess) (name : GoString) (mode timeout : Nat)
  | write (o : Obj) (b : Bytes) (count : Nat)
  | read (o : Obj) (count : Nat)
  deriving DecidableEq

/-- What the library answered to a call. -/
inductive Reply (Obj : Type) where
  | opened (o : Obj) (status : Status)
  | written (retCount : Nat) (status : Status)
  | wasRead (buffer : Bytes) (retCount : Nat) (status : Status)
  deriving DecidableEq

/-- One entry of the trace: a call and its reply. -/
structure Event (Sess Obj : Type) where
  call : Call Sess Obj
  reply : Reply Obj
  deriving DecidableEq

/-- The outside world as the driver sees it: the state behind the library and the
trace of the calls made so far, oldest first. -/
structure World (σ Sess Obj : Type) where
  dev : σ
  trace : List (Event Sess Obj)
  deriving DecidableEq

variable {σ Sess Obj : Type}

/-- Perform `rm.Open(name, mode, timeout)` and record it. -/
def World.doOpen (V : Visa σ Sess Obj) (rm : Sess) (name : GoString) (mode timeout : Nat)
    (w : World σ Sess Obj) : (Obj × Status) × World σ Sess Obj :=
  let r := V.Open rm name mode timeout w.dev
  (r.1, ⟨r.2, w.trace ++ [⟨Call.sessOpen rm name mode timeout, Reply.opened r.1.1 r.1.2⟩]⟩)

/-- Perform `o.Write(b, count)` and record it. -/
def World.doWrite (V : Visa σ Sess Obj) (o : Obj) (b : Bytes) (count : Nat)
    (w : World σ Sess Obj) : (Nat × Status) × World σ Sess Obj :=
  let r := V.Write o b count w.dev
  (r.1, ⟨r.2, w.trace ++ [⟨Call.write o b count, Reply.written r.1.1 r.1.2⟩]⟩)

/-- Perform `o.Read(count)` and record it. -/
def World.doRead (V : Visa σ Sess Obj) (o : Obj) (count : Nat)
    (w : World σ Sess Obj) : (Bytes × Nat × Status) × World σ Sess Obj :=
  let r := V.Read o count w.dev
  (r.1, ⟨r.2, w.trace ++ [⟨Call.read o count, Reply.wasRead r.1.1 r.1.2.1 r.1.2.2⟩]⟩)

/-! ## The driver -/

/-- The struct `Keithley`: the instrument session `instr`.  (The embedded `vi.Visa`
field is never used by the driver.) -/
structure Keithley (Obj : Type) where
  instr : Obj

/-- `OpenGpib`: opens a session to the specified resource. -/
def OpenGpib (V : Visa σ Sess Obj) (_k : Keithley Obj) (rm : Sess)
    (ctrl addr mode timeout : Nat) (w : World σ Sess Obj) :
    Status × Keithley Obj × World σ Sess Obj :=
  let name := lit "GPIB" ++ fmtD ctrl ++ lit "::" ++ fmtD addr
  let r := w.doOpen V rm name mode timeout
  (r.1.2, ⟨r.1.1⟩, r.2)

/-- `OpenTcp`: opens a session to the specified resource. -/
def OpenTcp (V : Visa σ Sess Obj) (_k : Keithley Obj) (rm : Sess)
    (ip : GoString) (mode timeout : Nat) (w : World σ Sess Obj) :
    Status × Keithley Obj × World σ Sess Obj :=
  let name := lit "TCPIP::" ++ ip ++ lit "::INSTR"
  let r := w.doOpen V rm name mode timeout
  (r.1.2, ⟨r.1.1⟩, r.2)

/-- `Reset`: resets the switch unit. -/
def Reset (V : Visa σ Sess Obj) (k : Keithley Obj) (w : World σ Sess Obj) :
    Status × World σ Sess Obj :=
  let b := lit "*RST"
  let r := w.doWrite V k.instr b (toUint32 b.length)
  (r.1.2, r.2)

/-- `OpenChan`: opens the specified channel. -/
def OpenChan (V : Visa σ Sess Obj) (k : Keithley Obj) (ch : Nat) (w : World σ Sess Obj) :
    Status × World σ Sess Obj :=
  let b := lit "OPEN (@" ++ fmtD ch ++ lit ")"
  let r := w.doWrite V k.instr b (toUint32 b.length)
  (r.1.2, r.2)

/-- `OpenAllChans`: opens all channels. -/
def OpenAllChans (V : Visa σ Sess Obj) (k : Keithley Obj) (w : World σ Sess Obj) :
    Status × World σ Sess Obj :=
  let b := lit "OPEN:ALL"
  let r := w.doWrite V k.instr b (toUint32 b.length)
  (r.1.2, r.2)

/-- The channel `uint32(c)` with `c := int((ch-1)/6)*6 + i` of the loop of
`CloseChan`; `ch - 1` is `uint32` arithmetic. -/
def sibling (ch i : Nat) : Nat :=
  toUint32 (((ch + 2 ^ 32 - 1) % 2 ^ 32) / 6 * 6 + i)

/-- `CloseChan`: closes the specified channel; all other channels on the relay
are opened first. -/
def CloseChan (V : Visa σ Sess Obj) (k : Keithley Obj) (ch : Nat) (w : World σ Sess Obj) :
    Status × World σ Sess Obj :=
  let w1 :=
    if ch > 0 ∧ ch < 25 then
      forRange 1 7 (fun i w0 => (OpenChan V k (sibling ch i) w0).2) w
    else w
  let b := lit "CLOSE (@" ++ fmtD ch ++ lit ")"
  let r := w1.doWrite V k.instr b (toUint32 b.length)
  (r.1.2, r.2)

/-- `ClosedChanList`: returns a list of closed channels.  The named results `list`
and `status` start at their zero values; the short declaration
`buffer, _, status := k.instr.Read(100)` stands in the function block, so it
assigns to the named result `status`. -/
def ClosedChanList (V : Visa σ Sess Obj) (k : Keithley Obj) (ch : Nat)
    (w : World σ Sess Obj) : (GoString × Status) × World σ Sess Obj :=
  let _ := ch
  let list : GoString := []
  let b := lit "CLOSE?"
  let r := w.doWrite V k.instr b (toUint32 b.length)
  let status := r.1.2
  if status < V.SUCCESS then
    ((list, status), r.2)
  else
    let rd := r.2.doRead V k.instr 100
    let buffer := rd.1.1
    let status := rd.1.2.2
    if status < V.SUCCESS then
      ((list, status), rd.2)
    else
      ((buffer, status), rd.2)

/-! ## Vocabulary for stating what the driver does -/

/-- The calls of a trace, replies erased. -/
def calls (t : List (Event Sess Obj)) : List (Call Sess Obj) := t.map Event.call

/-- The command `fmt.Sprintf("OPEN (@%d)", ch)`. -/
def openCmd (ch : Nat) : Bytes := lit "OPEN (@" ++ fmtD ch ++ lit ")"

/-- The command `fmt.Sprintf("CLOSE (@%d)", ch)`. -/
def closeCmd (ch : Nat) : Bytes := lit "CLOSE (@" ++ fmtD ch ++ lit ")"

/-- The call `o.Write([]byte(cmd), uint32(len(cmd)))`. -/
def writeCall (o : Obj) (cmd : Bytes) : Call Sess Obj :=
  Call.write o cmd (toUint32 cmd.length)

/-- The channels handed to `OpenChan` by the loop of `CloseChan`, in loop order
(`i` = 1, ..., 6). -/
def openedChans (ch : Nat) : List Nat := (List.range 6).map (fun j => sibling ch (1 + j))

/-- The call that writes all the bytes of `cmd`. -/
def plainWrite (o : Obj) (cmd : Bytes) : Call Sess Obj :=
  Call.write o cmd cmd.length

/-- The calls `CloseChan` makes, as a function of the session and the channel
alone. -/
def closeChanCalls (o : Obj) (ch : Nat) : List (Call Sess Obj) :=
  (if ch > 0 ∧ ch < 25 then (openedChans ch).map (fun c => writeCall o (openCmd c)) else [])
    ++ [writeCall o (closeCmd ch)]

/-- The relays of the S46, from the layout comment of the source. -/
inductive Relay where
  | A | B | C | D
  | twoPole (n : Nat)
  deriving DecidableEq

/-- The relay a channel belongs to, from the layout comment of the source:
relay A = channels 1..6, B = 7..12, C = 13..18, D = 19..24, and the 2-pole relays
1..8 = channels 25..32. -/
def relayOf (ch : Nat) : Option Relay :=
  if 1 ≤ ch ∧ ch ≤ 6 then some Relay.A
  else if 7 ≤ ch ∧ ch ≤ 12 then some Relay.B
  else if 13 ≤ ch ∧ ch ≤ 18 then some Relay.C
  else if 19 ≤ ch ∧ ch ≤ 24 then some Relay.D
  else if 25 ≤ ch ∧ ch ≤ 32 then some (Relay.twoPole (ch - 24))
  else none

/-- The four multi-pole relays. -/
def multiPole : List Relay := [Relay.A, Relay.B, Relay.C, Relay.D]

/-! ## Transports used to exercise the driver -/

/-- A transport that answers every call with the next status of a script (0 once
the script is used up); a write reports all bytes written and a read answers the
first `count` bytes of `resp`. -/
def scripted (resp : Bytes) : Visa (List Status) Unit Unit where
  SUCCESS := 0
  Open := fun _ _ _ _ s => (((), s.headD 0), s.tail)
  Write := fun _ _ count s => ((count, s.headD 0), s.tail)
  Read := fun _ count s => ((resp.take count, (resp.take count).length, s.headD 0), s.tail)

/-- The value of a decimal digit. -/
def digitVal (b : UInt8) : Option Nat :=
  if 48 ≤ b.toNat ∧ b.toNat ≤ 57 then some (b.toNat - 48) else none

/-- Read decimal digits, most significant first, onto an accumulator. -/
def parseDecFrom : Nat → Bytes → Option Nat
  | acc, [] => some acc
  | acc, b :: bs =>
    match digitVal b with
    | some d => parseDecFrom (10 * acc + d) bs
    | none => none

/-- Read a non-empty decimal numeral. -/
def parseDec (bs : Bytes) : Option Nat :=
  if bs = [] then none else parseDecFrom 0 bs

/-- The channel `c` of a command `head ++ decimal c ++ ")"`. -/
def parseChanCmd (head b : Bytes) : Option Nat :=
  if head.isPrefixOf b = true ∧ b.getLast? = some 41 then
    parseDec ((b.drop head.length).dropLast)
  else none

/-- Modelled from the spec: the instrument is not part of the repository. The ideal
instrument reacts to a command on its set of closed channels: `*RST` and `OPEN:ALL`
empty the set, `CLOSE?` leaves it unchanged, `OPEN (@c)` removes `c`, `CLOSE (@c)`
adds `c`; anything else is ignored. -/
def idealWrite (b : Bytes) (s : Finset Nat) : Finset Nat :=
  if b = lit "*RST" ∨ b = lit "OPEN:ALL" then ∅
  else if b = lit "CLOSE?" then s
  else
    match parseChanCmd (lit "OPEN (@") b with
    | some c => s.erase c
    | none =>
      match parseChanCmd (lit "CLOSE (@") b with
      | some c => insert c s
      | none => s

/-- Modelled from the spec: the ideal instrument as a transport. Its state is the set
of closed channels, every call succeeds (status 0 = `SUCCESS`), a write acts by
`idealWrite`, and a read answers the first `count` bytes of `resp s` and leaves the
state unchanged. -/
def idealS46 (resp : Finset Nat → Bytes) : Visa (Finset Nat) Unit Unit where
  SUCCESS := 0
  Open := fun _ _ _ _ s => (((), 0), s)
  Write := fun _ b count s => ((count, 0), idealWrite b s)
  Read := fun _ count s => (((resp s).take count, ((resp s).take count).length, 0), s)

/-- The safety rule of the layout comment ("do not close more than one RF path per
multiport switch"): every multi-pole relay has at most one closed channel. -/
def groupSafe (s : Finset Nat) : Prop :=
  ∀ r ∈ multiPole, (s.filter (fun c => relayOf c = some r)).card ≤ 1

instance groupSafeDecidable (s : Finset Nat) : Decidable (groupSafe s) := by
  unfold groupSafe
  infer_instance

/-! ## Basic facts about the embedding -/

theorem lit_openHead : lit "OPEN (@" = [79, 80, 69, 78, 32, 40, 64] := by decide

theorem lit_closeHead : lit "CLOSE (@" = [67, 76, 79, 83, 69, 32, 40, 64] := by decide

theorem lit_tail : lit ")" = [41] := by decide

theorem lit_rst : lit "*RST" = [42, 82, 83, 84] := by decide

theorem lit_openAll : lit "OPEN:ALL" = [79, 80, 69, 78, 58, 65, 76, 76] := by decide

theorem lit_closeQuery : lit "CLOSE?" = [67, 76, 79, 83, 69, 63] := by decide

/-- A `uint32` prints in at most ten decimal digits. -/
theorem fmtD_length_le (n : Nat) (h : n < 2 ^ 32) : (fmtD n).length ≤ 10 := by
  have h10 : n < 10 ^ 10 := lt_of_lt_of_le h (by norm_num)
  simpa [fmtD, Nat.toDigits] using
    Nat.toDigitsCore_length 10 (by decide) (n + 1) n 10 h10 (by decide)

theorem openCmd_length (ch : Nat) : (openCmd ch).length = (fmtD ch).length + 8 := by
  simp [openCmd, lit_openHead, lit_tail]

theorem closeCmd_length (ch : Nat) : (closeCmd ch).length = (fmtD ch).length + 9 := by
  simp [closeCmd, lit_closeHead, lit_tail]

theorem toUint32_openCmd_length (ch : Nat) (h : ch < 2 ^ 32) :
    toUint32 (openCmd ch).length = (openCmd ch).length := by
  have := fmtD_length_le ch h
  rw [openCmd_length]
  unfold toUint32
  omega

theorem toUint32_closeCmd_length (ch : Nat) (h : ch < 2 ^ 32) :
    toUint32 (closeCmd ch).length = (closeCmd ch).length := by
  have := fmtD_length_le ch h
  rw [closeCmd_length]
  unfold toUint32
  omega

/-! ## Opening a session -/

/-- C9. `OpenGpib` hands `rm.Open` the resource string `GPIB<ctrl>::<addr>` (both in
decimal) and `OpenTcp` hands it `TCPIP::<ip>::INSTR`; mode and timeout are passed
through unchanged, `Open` is the only call made, the status returned is the status
`Open` returned (and the session it returned is stored in `instr`); with ctrl = 0,
addr = 14 the string is `GPIB0::14`, with ip = `192.168.1.5` it is
`TCPIP::192.168.1.5::INSTR`. -/
theorem open_resource_string (V : Visa σ Sess Obj) (k : Keithley Obj) (rm : Sess)
    (ctrl addr mode timeout : Nat) (ip : GoString) (w : World σ Sess Obj) :
    (OpenGpib V k rm ctrl addr mode timeout w =
      (let name := lit "GPIB" ++ fmtD ctrl ++ lit "::" ++ fmtD addr
       let r := V.Open rm name mode timeout w.dev
       (r.1.2, ⟨r.1.1⟩,
        ⟨r.2, w.trace ++ [⟨Call.sessOpen rm name mode timeout, Reply.opened r.1.1 r.1.2⟩]⟩)))
    ∧ (OpenTcp V k rm ip mode timeout w =
      (let name := lit "TCPIP::" ++ ip ++ lit "::INSTR"
       let r := V.Open rm name mode timeout w.dev
       (r.1.2, ⟨r.1.1⟩,
        ⟨r.2, w.trace ++ [⟨Call.sessOpen rm name mode timeout, Reply.opened r.1.1 r.1.2⟩]⟩)))
    ∧ lit "GPIB" ++ fmtD 0 ++ lit "::" ++ fmtD 14 = lit "GPIB0::14"
    ∧ lit "TCPIP::" ++ lit "192.168.1.5" ++ lit "::INSTR" = lit "TCPIP::192.168.1.5::INSTR" :=
  ⟨rfl, rfl, by decide, by decide⟩

/-! ## Opening a channel -/

/-- C8. For every `uint32` channel value, 0 and values above 32 included, `OpenChan`
makes exactly one call on the library: a write of the bytes `OPEN (@`, the decimal
digits of the channel, `)`, with the length of that command as byte count; it
returns the status of that write unchanged. -/
theorem OpenChan_single_write (V : Visa σ Sess Obj) (k : Keithley Obj) (ch : Nat)
    (w : World σ Sess Obj) (hch : ch < 2 ^ 32) :
    OpenChan V k ch w =
      (let cmd := lit "OPEN (@" ++ fmtD ch ++ lit ")"
       let r := V.Write k.instr cmd cmd.length w.dev
       (r.1.2, ⟨r.2, w.trace ++ [⟨Call.write k.instr cmd cmd.length,
                                   Reply.written r.1.1 r.1.2⟩]⟩)) := by
  have h := toUint32_openCmd_length ch hch
  unfold openCmd at h
  simp only [OpenChan, World.doWrite, h]

theorem OpenChan_single_write_witness :
    OpenChan (scripted []) ⟨()⟩ 4000000000 ⟨[-5], []⟩ =
      (-5, ⟨[], [⟨Call.write () (lit "OPEN (@4000000000)") 18, Reply.written 18 (-5)⟩]⟩) :=
  (OpenChan_single_write (scripted []) ⟨()⟩ 4000000000 ⟨[-5], []⟩ (by decide)).trans
    (by decide)

/-! ## Querying the closed channels -/

theorem toUint32_closeQuery_length : toUint32 (lit "CLOSE?").length = 6 := by decide

/-- C5. When the write of `CLOSE?` returns a status below `SUCCESS`, `ClosedChanList`
returns the empty string together with exactly that status, and the write is the
only call it makes on the library: no read is performed. -/
theorem ClosedChanList_write_failure (V : Visa σ Sess Obj) (k : Keithley Obj) (ch : Nat)
    (w : World σ Sess Obj)
    (hw : (V.Write k.instr (lit "CLOSE?") 6 w.dev).1.2 < V.SUCCESS) :
    ClosedChanList V k ch w =
      (let r := V.Write k.instr (lit "CLOSE?") 6 w.dev
       (([], r.1.2),
        ⟨r.2, w.trace ++ [⟨Call.write k.instr (lit "CLOSE?") 6,
                            Reply.written r.1.1 r.1.2⟩]⟩)) := by
  simp only [ClosedChanList, World.doWrite, toUint32_closeQuery_length, hw, if_true]

theorem ClosedChanList_write_failure_witness :
    ClosedChanList (scripted (lit "(@1,3,7)")) ⟨()⟩ 0 ⟨[-3, 0], []⟩ =
      (([], -3), ⟨[0], [⟨Call.write () (lit "CLOSE?") 6, Reply.written 6 (-3)⟩]⟩) :=
  (ClosedChanList_write_failure (scripted (lit "(@1,3,7)")) ⟨()⟩ 0 ⟨[-3, 0], []⟩
    (by decide)).trans (by decide)

/-- C6. When the write of `CLOSE?` and the read that follows both return a status at
or above `SUCCESS`, `ClosedChanList` makes exactly two calls on the library, the
write of `CLOSE?` and then a read of at most 100 bytes, and returns the bytes of the
read unchanged together with the status of the read. -/
theorem ClosedChanList_success (V : Visa σ Sess Obj) (k : Keithley Obj) (ch : Nat)
    (w : World σ Sess Obj)
    (hw : V.SUCCESS ≤ (V.Write k.instr (lit "CLOSE?") 6 w.dev).1.2)
    (hr : V.SUCCESS ≤
      (V.Read k.instr 100 (V.Write k.instr (lit "CLOSE?") 6 w.dev).2).1.2.2) :
    ClosedChanList V k ch w =
      (let r := V.Write k.instr (lit "CLOSE?") 6 w.dev
       let rd := V.Read k.instr 100 r.2
       ((rd.1.1, rd.1.2.2),
        ⟨rd.2, w.trace ++ [⟨Call.write k.instr (lit "CLOSE?") 6, Reply.written r.1.1 r.1.2⟩,
                            ⟨Call.read k.instr 100,
                             Reply.wasRead rd.1.1 rd.1.2.1 rd.1.2.2⟩]⟩)) := by
  simp only [ClosedChanList, World.doWrite, World.doRead, toUint32_closeQuery_length,
    not_lt.mpr hw, not_lt.mpr hr, if_false, List.append_assoc, List.singleton_append]

theorem ClosedChanList_success_witness :
    ClosedChanList (scripted (lit "(@1,3,7)")) ⟨()⟩ 0 ⟨[0, 0], []⟩ =
      ((lit "(@1,3,7)", 0),
       ⟨[], [⟨Call.write () (lit "CLOSE?") 6, Reply.written 6 0⟩,
             ⟨Call.read () 100, Reply.wasRead (lit "(@1,3,7)") 8 0⟩]⟩) :=
  (ClosedChanList_success (scripted (lit "(@1,3,7)")) ⟨()⟩ 0 ⟨[0, 0], []⟩
    (by decide) (by decide)).trans (by decide)

/-- C7, as the code has it. When the write of `CLOSE?` does not fail,
`ClosedChanList` performs the read of at most 100 bytes and returns the status of
the read; the string it returns is exactly the bytes of the read when the status of
the read is at or above `SUCCESS`, and the empty string when it is below. -/
theorem ClosedChanList_after_write (V : Visa σ Sess Obj) (k : Keithley Obj) (ch : Nat)
    (w : World σ Sess Obj)
    (hw : V.SUCCESS ≤ (V.Write k.instr (lit "CLOSE?") 6 w.dev).1.2) :
    ClosedChanList V k ch w =
      (let r := V.Write k.instr (lit "CLOSE?") 6 w.dev
       let rd := V.Read k.instr 100 r.2
       ((if rd.1.2.2 < V.SUCCESS then [] else rd.1.1, rd.1.2.2),
        ⟨rd.2, w.trace ++ [⟨Call.write k.instr (lit "CLOSE?") 6, Reply.written r.1.1 r.1.2⟩,
                            ⟨Call.read k.instr 100,
                             Reply.wasRead rd.1.1 rd.1.2.1 rd.1.2.2⟩]⟩)) := by
  simp only [ClosedChanList, World.doWrite, World.doRead, toUint32_closeQuery_length,
    not_lt.mpr hw, if_false, List.append_assoc, List.singleton_append]
  split <;> rfl

theorem ClosedChanList_after_write_witness :
    ClosedChanList (scripted (lit "(@1,3,7)")) ⟨()⟩ 0 ⟨[0, -1], []⟩ =
      (([], -1),
       ⟨[], [⟨Call.write () (lit "CLOSE?") 6, Reply.written 6 0⟩,
             ⟨Call.read () 100, Reply.wasRead (lit "(@1,3,7)") 8 (-1)⟩]⟩) :=
  (ClosedChanList_after_write (scripted (lit "(@1,3,7)")) ⟨()⟩ 0 ⟨[0, -1], []⟩
    (by decide)).trans (by decide)

/-- C7 as stated fails: on a transport whose write of `CLOSE?` succeeds and whose
read hands back the bytes `(@1,3,7)` with a status below `SUCCESS`, the string
returned by `ClosedChanList` is not the bytes the read returned (it is empty). -/
theorem ClosedChanList_raw_response_fails :
    ¬ ((scripted (lit "(@1,3,7)")).SUCCESS ≤
          ((scripted (lit "(@1,3,7)")).Write () (lit "CLOSE?") 6 [0, -1]).1.2 →
        (ClosedChanList (scripted (lit "(@1,3,7)")) ⟨()⟩ 0 ⟨[0, -1], []⟩).1.1 =
          ((scripted (lit "(@1,3,7)")).Read () 100
            ((scripted (lit "(@1,3,7)")).Write () (lit "CLOSE?") 6 [0, -1]).2).1.1) := by
  decide

/-! ## Closing a channel: the calls made -/

theorem calls_append (t u : List (Event Sess Obj)) : calls (t ++ u) = calls t ++ calls u := by
  simp [calls]

theorem OpenChan_trace (V : Visa σ Sess Obj) (k : Keithley Obj) (c : Nat)
    (w : World σ Sess Obj) :
    ∃ ret st, (OpenChan V k c w).2.trace =
      w.trace ++ [⟨writeCall k.instr (openCmd c), Reply.written ret st⟩] :=
  ⟨_, _, rfl⟩

/-- The trace of the loop of `CloseChan` over a list of loop indices. -/
theorem openLoop_trace (V : Visa σ Sess Obj) (k : Keithley Obj) (f : Nat → Nat)
    (l : List Nat) (w : World σ Sess Obj) :
    ∃ pre, (l.foldl (fun acc j => (OpenChan V k (f j) acc).2) w).trace = w.trace ++ pre
      ∧ calls pre = l.map (fun j => writeCall k.instr (openCmd (f j))) := by
  induction l generalizing w with
  | nil => exact ⟨[], by simp, rfl⟩
  | cons j l ih =>
    obtain ⟨ret, st, h1⟩ := OpenChan_trace V k (f j) w
    obtain ⟨pre, h2, h3⟩ := ih (OpenChan V k (f j) w).2
    refine ⟨⟨writeCall k.instr (openCmd (f j)), Reply.written ret st⟩ :: pre, ?_, ?_⟩
    · rw [List.foldl_cons, h2, h1]
      simp
    · simp only [calls, List.map_cons] at h3 ⊢
      rw [h3]

theorem doWrite_trace (V : Visa σ Sess Obj) (o : Obj) (b : Bytes) (count : Nat)
    (w : World σ Sess Obj) :
    ∃ ret, (w.doWrite V o b count).2.trace =
      w.trace ++ [⟨Call.write o b count, Reply.written ret (w.doWrite V o b count).1.2⟩] :=
  ⟨_, rfl⟩

/-- The world in which `CloseChan` performs its final write. -/
theorem CloseChan_eq (V : Visa σ Sess Obj) (k : Keithley Obj) (ch : Nat)
    (w : World σ Sess Obj) :
    CloseChan V k ch w =
      (((if ch > 0 ∧ ch < 25 then
          (List.range 6).foldl (fun acc j => (OpenChan V k (sibling ch (1 + j)) acc).2) w
         else w).doWrite V k.instr (closeCmd ch) (toUint32 (closeCmd ch).length)).1.2,
       ((if ch > 0 ∧ ch < 25 then
          (List.range 6).foldl (fun acc j => (OpenChan V k (sibling ch (1 + j)) acc).2) w
         else w).doWrite V k.instr (closeCmd ch) (toUint32 (closeCmd ch).length)).2) :=
  rfl

/-- The trace of `CloseChan`: the calls of `closeChanCalls`, the last of which is the
write of the `CLOSE` command, whose status is the status returned. -/
theorem CloseChan_trace (V : Visa σ Sess Obj) (k : Keithley Obj) (ch : Nat)
    (w : World σ Sess Obj) :
    ∃ pre ret, (CloseChan V k ch w).2.trace =
        w.trace ++ pre ++
          [⟨writeCall k.instr (closeCmd ch), Reply.written ret (CloseChan V k ch w).1⟩]
      ∧ calls pre ++ [writeCall k.instr (closeCmd ch)] = closeChanCalls k.instr ch := by
  rw [CloseChan_eq]
  by_cases hg : ch > 0 ∧ ch < 25
  · obtain ⟨pre, h2, h3⟩ :=
      openLoop_trace V k (fun j => sibling ch (1 + j)) (List.range 6) w
    obtain ⟨ret, hr⟩ := doWrite_trace V k.instr (closeCmd ch) (toUint32 (closeCmd ch).length)
      ((List.range 6).foldl (fun acc j => (OpenChan V k (sibling ch (1 + j)) acc).2) w)
    refine ⟨pre, ret, ?_, ?_⟩
    · rw [if_pos hg, hr, h2]
      rfl
    · rw [h3, closeChanCalls, if_pos hg, openedChans, List.map_map]
      rfl
  · obtain ⟨ret, hr⟩ :=
      doWrite_trace V k.instr (closeCmd ch) (toUint32 (closeCmd ch).length) w
    refine ⟨[], ret, ?_, ?_⟩
    · rw [if_neg hg, hr, List.append_nil]
      rfl
    · rw [closeChanCalls, if_neg hg]
      rfl

theorem CloseChan_calls (V : Visa σ Sess Obj) (k : Keithley Obj) (ch : Nat)
    (w : World σ Sess Obj) :
    calls (CloseChan V k ch w).2.trace = calls w.trace ++ closeChanCalls k.instr ch := by
  obtain ⟨pre, ret, h, hc⟩ := CloseChan_trace V k ch w
  rw [h, calls_append, calls_append, List.append_assoc, ← hc]
  rfl

theorem range_six : List.range 6 = [0, 1, 2, 3, 4, 5] := by decide

/-- Within the multi-pole range the loop of `CloseChan` visits base+1, ..., base+6. -/
theorem openedChans_eq (ch : Nat) (h1 : 1 ≤ ch) (h24 : ch ≤ 24) :
    openedChans ch =
      [(ch - 1) / 6 * 6 + 1, (ch - 1) / 6 * 6 + 2, (ch - 1) / 6 * 6 + 3,
       (ch - 1) / 6 * 6 + 4, (ch - 1) / 6 * 6 + 5, (ch - 1) / 6 * 6 + 6] := by
  have hs : ∀ i, i ≤ 6 → sibling ch i = (ch - 1) / 6 * 6 + i := by
    intro i hi
    unfold sibling toUint32
    omega
  simp only [openedChans, range_six, List.map_cons, List.map_nil]
  rw [hs _ (by norm_num), hs _ (by norm_num), hs _ (by norm_num), hs _ (by norm_num),
    hs _ (by norm_num), hs _ (by norm_num)]

theorem writeCall_openCmd (o : Obj) (c : Nat) (h : c < 2 ^ 32) :
    (writeCall o (openCmd c) : Call Sess Obj) = plainWrite o (openCmd c) := by
  simp only [writeCall, plainWrite, toUint32_openCmd_length c h]

theorem writeCall_closeCmd (o : Obj) (c : Nat) (h : c < 2 ^ 32) :
    (writeCall o (closeCmd c) : Call Sess Obj) = plainWrite o (closeCmd c) := by
  simp only [writeCall, plainWrite, toUint32_closeCmd_length c h]

/-- C1. For 1 <= ch <= 24 and any transport, the calls `CloseChan(ch)` makes on the
library are exactly seven writes, in this order: `OPEN (@base+1)`, ...,
`OPEN (@base+6)` with base = ((ch-1)/6)*6 and the channel in decimal, then
`CLOSE (@ch)`, each with the length of its command as byte count; no other write
and no read is made. -/
theorem CloseChan_multipole_sequence (V : Visa σ Sess Obj) (k : Keithley Obj) (ch : Nat)
    (w : World σ Sess Obj) (h1 : 1 ≤ ch) (h24 : ch ≤ 24) :
    calls (CloseChan V k ch w).2.trace =
      calls w.trace ++
        [plainWrite k.instr (lit "OPEN (@" ++ fmtD ((ch - 1) / 6 * 6 + 1) ++ lit ")"),
         plainWrite k.instr (lit "OPEN (@" ++ fmtD ((ch - 1) / 6 * 6 + 2) ++ lit ")"),
         plainWrite k.instr (lit "OPEN (@" ++ fmtD ((ch - 1) / 6 * 6 + 3) ++ lit ")"),
         plainWrite k.instr (lit "OPEN (@" ++ fmtD ((ch - 1) / 6 * 6 + 4) ++ lit ")"),
         plainWrite k.instr (lit "OPEN (@" ++ fmtD ((ch - 1) / 6 * 6 + 5) ++ lit ")"),
         plainWrite k.instr (lit "OPEN (@" ++ fmtD ((ch - 1) / 6 * 6 + 6) ++ lit ")"),
         plainWrite k.instr (lit "CLOSE (@" ++ fmtD ch ++ lit ")")] := by
  have ho : ∀ i, i ≤ 6 →
      (writeCall k.instr (openCmd ((ch - 1) / 6 * 6 + i)) : Call Sess Obj) =
        plainWrite k.instr (openCmd ((ch - 1) / 6 * 6 + i)) :=
    fun i hi => writeCall_openCmd _ _ (by omega)
  have hc : (writeCall k.instr (closeCmd ch) : Call Sess Obj) =
      plainWrite k.instr (closeCmd ch) := writeCall_closeCmd _ _ (by omega)
  rw [CloseChan_calls, closeChanCalls, if_pos ⟨h1, by omega⟩, openedChans_eq ch h1 h24]
  simp only [List.map_cons, List.map_nil]
  rw [ho 1 (by norm_num), ho 2 (by norm_num), ho 3 (by norm_num), ho 4 (by norm_num),
    ho 5 (by norm_num), ho 6 (by norm_num), hc]
  rfl

theorem CloseChan_multipole_sequence_witness :
    calls (CloseChan (scripted []) ⟨()⟩ 8 ⟨[-1, -1, -1, -1, -1, -1, 7], []⟩).2.trace =
      [plainWrite () (lit "OPEN (@7)"), plainWrite () (lit "OPEN (@8)"),
       plainWrite () (lit "OPEN (@9)"), plainWrite () (lit "OPEN (@10)"),
       plainWrite () (lit "OPEN (@11)"), plainWrite () (lit "OPEN (@12)"),
       plainWrite () (lit "CLOSE (@8)")] :=
  (CloseChan_multipole_sequence (scripted []) ⟨()⟩ 8 ⟨[-1, -1, -1, -1, -1, -1, 7], []⟩
    (by decide) (by decide)).trans (by decide)

/-- C2. For 25 <= ch <= 32 and any transport, `CloseChan(ch)` makes exactly one call
on the library: the write of `CLOSE (@ch)` with the channel in decimal (and the
length of the command as byte count); no `OPEN` write precedes it, and the status
of that write is returned. -/
theorem CloseChan_twopole_single_write (V : Visa σ Sess Obj) (k : Keithley Obj) (ch : Nat)
    (w : World σ Sess Obj) (h25 : 25 ≤ ch) (h32 : ch ≤ 32) :
    CloseChan V k ch w =
      (let cmd := lit "CLOSE (@" ++ fmtD ch ++ lit ")"
       let r := V.Write k.instr cmd cmd.length w.dev
       (r.1.2, ⟨r.2, w.trace ++ [⟨Call.write k.instr cmd cmd.length,
                                   Reply.written r.1.1 r.1.2⟩]⟩)) := by
  have h := toUint32_closeCmd_length ch (by omega)
  rw [CloseChan_eq, if_neg (by omega), h]
  rfl

theorem CloseChan_twopole_single_write_witness :
    CloseChan (scripted []) ⟨()⟩ 30 ⟨[5, 6], []⟩ =
      (5, ⟨[6], [⟨Call.write () (lit "CLOSE (@30)") 11, Reply.written 11 5⟩]⟩) :=
  (CloseChan_twopole_single_write (scripted []) ⟨()⟩ 30 ⟨[5, 6], []⟩
    (by decide) (by decide)).trans (by decide)

/-- C4. For every channel and every transport (whatever statuses its writes return,
every `OPEN` write failing included), the last call of `CloseChan(ch)` is the write
of `CLOSE (@ch)` and the status `CloseChan` returns is the status of that write; the
sequence of calls is `closeChanCalls`, a function of the session and the channel
alone, so no status of an `OPEN` write influences it. -/
theorem CloseChan_returns_close_status (V : Visa σ Sess Obj) (k : Keithley Obj) (ch : Nat)
    (w : World σ Sess Obj) :
    (∃ pre ret, (CloseChan V k ch w).2.trace =
        w.trace ++ pre ++
          [⟨Call.write k.instr (lit "CLOSE (@" ++ fmtD ch ++ lit ")")
              (toUint32 (lit "CLOSE (@" ++ fmtD ch ++ lit ")").length),
            Reply.written ret (CloseChan V k ch w).1⟩])
    ∧ calls (CloseChan V k ch w).2.trace = calls w.trace ++ closeChanCalls k.instr ch := by
  obtain ⟨pre, ret, h, _⟩ := CloseChan_trace V k ch w
  exact ⟨⟨pre, ret, h⟩, CloseChan_calls V k ch w⟩

/-! ## The relay layout -/

theorem relayOf_A (c : Nat) : relayOf c = some Relay.A ↔ 1 ≤ c ∧ c ≤ 6 := by
  unfold relayOf
  split_ifs <;> simp <;> omega

theorem relayOf_B (c : Nat) : relayOf c = some Relay.B ↔ 7 ≤ c ∧ c ≤ 12 := by
  unfold relayOf
  split_ifs <;> simp <;> omega

theorem relayOf_C (c : Nat) : relayOf c = some Relay.C ↔ 13 ≤ c ∧ c ≤ 18 := by
  unfold relayOf
  split_ifs <;> simp <;> omega

theorem relayOf_D (c : Nat) : relayOf c = some Relay.D ↔ 19 ≤ c ∧ c ≤ 24 := by
  unfold relayOf
  split_ifs <;> simp <;> omega

/-- A channel lies on the multi-pole relay number `g` (A = 0, ..., D = 3) exactly when
it is one of 6g+1, ..., 6g+6. -/
theorem relayOf_multiPole (r : Relay) (hr : r ∈ multiPole) :
    ∃ g, g < 4 ∧ ∀ c, relayOf c = some r ↔ 6 * g + 1 ≤ c ∧ c ≤ 6 * g + 6 := by
  simp only [multiPole, List.mem_cons, List.mem_singleton, List.not_mem_nil, or_false] at hr
  rcases hr with rfl | rfl | rfl | rfl
  · exact ⟨0, by norm_num, fun c => by rw [relayOf_A]⟩
  · exact ⟨1, by norm_num, fun c => by rw [relayOf_B]⟩
  · exact ⟨2, by norm_num, fun c => by rw [relayOf_C]⟩
  · exact ⟨3, by norm_num, fun c => by rw [relayOf_D]⟩

/-- A channel of the multi-pole range lies on a multi-pole relay, whose channels are
base+1, ..., base+6. -/
theorem relayOf_of_multipole_range (ch : Nat) (h1 : 1 ≤ ch) (h24 : ch ≤ 24) :
    ∃ r, r ∈ multiPole ∧ relayOf ch = some r ∧
      ∀ c, relayOf c = some r ↔ (ch - 1) / 6 * 6 + 1 ≤ c ∧ c ≤ (ch - 1) / 6 * 6 + 6 := by
  by_cases hA : ch ≤ 6
  · refine ⟨Relay.A, by simp [multiPole], (relayOf_A ch).2 ⟨h1, hA⟩, fun c => ?_⟩
    rw [relayOf_A]
    omega
  by_cases hB : ch ≤ 12
  · refine ⟨Relay.B, by simp [multiPole], (relayOf_B ch).2 ⟨by omega, hB⟩, fun c => ?_⟩
    rw [relayOf_B]
    omega
  by_cases hC : ch ≤ 18
  · refine ⟨Relay.C, by simp [multiPole], (relayOf_C ch).2 ⟨by omega, hC⟩, fun c => ?_⟩
    rw [relayOf_C]
    omega
  · refine ⟨Relay.D, by simp [multiPole], (relayOf_D ch).2 ⟨by omega, h24⟩, fun c => ?_⟩
    rw [relayOf_D]
    omega

theorem mem_openedChans (ch : Nat) (h1 : 1 ≤ ch) (h24 : ch ≤ 24) (c : Nat) :
    c ∈ openedChans ch ↔ (ch - 1) / 6 * 6 + 1 ≤ c ∧ c ≤ (ch - 1) / 6 * 6 + 6 := by
  rw [openedChans_eq ch h1 h24]
  simp only [List.mem_cons, List.mem_singleton, List.not_mem_nil, or_false]
  omega

/-- C10. For 1 <= ch <= 24, the channels `CloseChan(ch)` opens before its `CLOSE`
write are base+1, ..., base+6 with base = ((ch-1)/6)*6, and they are exactly the
channels of the multi-pole relay that contains ch in the layout A = 1..6,
B = 7..12, C = 13..18, D = 19..24: ch is among them, each lies in [1,24], and a
channel is among them if and only if it is on the relay of ch. -/
theorem CloseChan_opens_relay_of_channel (V : Visa σ Sess Obj) (k : Keithley Obj)
    (ch : Nat) (w : World σ Sess Obj) (h1 : 1 ≤ ch) (h24 : ch ≤ 24) :
    calls (CloseChan V k ch w).2.trace =
        calls w.trace ++ (openedChans ch).map (fun c => writeCall k.instr (openCmd c))
          ++ [writeCall k.instr (closeCmd ch)]
    ∧ openedChans ch =
        [(ch - 1) / 6 * 6 + 1, (ch - 1) / 6 * 6 + 2, (ch - 1) / 6 * 6 + 3,
         (ch - 1) / 6 * 6 + 4, (ch - 1) / 6 * 6 + 5, (ch - 1) / 6 * 6 + 6]
    ∧ (∃ r, r ∈ multiPole ∧ relayOf ch = some r)
    ∧ (∀ c, c ∈ openedChans ch ↔ relayOf c = relayOf ch)
    ∧ ch ∈ openedChans ch
    ∧ ∀ c, c ∈ openedChans ch → 1 ≤ c ∧ c ≤ 24 := by
  obtain ⟨r, hr, hch, hiff⟩ := relayOf_of_multipole_range ch h1 h24
  refine ⟨?_, openedChans_eq ch h1 h24, ⟨r, hr, hch⟩, fun c => ?_, ?_, fun c hc => ?_⟩
  · rw [CloseChan_calls, closeChanCalls, if_pos ⟨h1, by omega⟩, List.append_assoc]
  · rw [hch, hiff, mem_openedChans ch h1 h24]
  · rw [mem_openedChans ch h1 h24]
    omega
  · rw [mem_openedChans ch h1 h24] at hc
    omega

theorem CloseChan_opens_relay_of_channel_witness :
    openedChans 14 = [13, 14, 15, 16, 17, 18] ∧ relayOf 14 = some Relay.C
      ∧ (∀ c, c ∈ openedChans 14 ↔ relayOf c = relayOf 14) :=
  have h := CloseChan_opens_relay_of_channel (scripted []) ⟨()⟩ 14 ⟨[], []⟩
    (by decide) (by decide)
  ⟨h.2.1.trans (by decide), by decide, h.2.2.2.1⟩

/-! ## The ideal instrument reads back what the driver prints -/

theorem digitVal_digitChar (d : Nat) (hd : d < 10) :
    digitVal (byteOf (Nat.digitChar d)) = some d := by
  interval_cases d <;> decide

theorem parseDecFrom_append (xs ys : Bytes) (acc : Nat) :
    parseDecFrom acc (xs ++ ys) = (parseDecFrom acc xs).bind (fun a => parseDecFrom a ys) := by
  induction xs generalizing acc with
  | nil => rfl
  | cons x xs ih =>
    simp only [List.cons_append, parseDecFrom]
    cases digitVal x with
    | none => rfl
    | some d => exact ih _

/-- With enough fuel, `Nat.toDigitsCore` at base 10 puts in front of its accumulator
a non-empty run of digits that reads back as the number printed. -/
theorem toDigitsCore_reads_back (fuel : Nat) :
    ∀ (n : Nat) (ds : List Char), n < fuel →
      ∃ xs : List Char, Nat.toDigitsCore 10 fuel n ds = xs ++ ds ∧ xs ≠ [] ∧
        ∀ acc, parseDecFrom acc (xs.map byteOf) = some (acc * 10 ^ xs.length + n) := by
  induction fuel with
  | zero => intro n ds h; omega
  | succ fuel ih =>
    intro n ds hn
    have hmod : digitVal (byteOf (Nat.digitChar (n % 10))) = some (n % 10) :=
      digitVal_digitChar _ (Nat.mod_lt _ (by norm_num))
    by_cases hq : n / 10 = 0
    · refine ⟨[Nat.digitChar (n % 10)], ?_, by simp, fun acc => ?_⟩
      · simp [Nat.toDigitsCore, hq]
      · simp only [List.map_cons, List.map_nil, parseDecFrom, hmod, List.length_singleton,
          pow_one, Option.some.injEq]
        omega
    · obtain ⟨xs, hxs, hne, hval⟩ := ih (n / 10) (Nat.digitChar (n % 10) :: ds) (by omega)
      refine ⟨xs ++ [Nat.digitChar (n % 10)], ?_, by simp, fun acc => ?_⟩
      · simp [Nat.toDigitsCore, hq, hxs]
      · rw [List.map_append, parseDecFrom_append, hval acc]
        simp only [Option.bind, List.map_cons, List.map_nil, parseDecFrom, hmod,
          List.length_append, List.length_singleton, pow_succ, Option.some.injEq]
        generalize 10 ^ xs.length = p
        have := Nat.div_add_mod n 10
        nlinarith

/-- Reading back the decimal digits of `n` gives `n`. -/
theorem parseDec_fmtD (n : Nat) : parseDec (fmtD n) = some n := by
  obtain ⟨xs, hxs, hne, hval⟩ := toDigitsCore_reads_back (n + 1) n [] (Nat.lt_succ_self n)
  have h : fmtD n = xs.map byteOf := by
    simp [fmtD, Nat.toDigits, hxs]
  have hne2 : xs.map byteOf ≠ [] := by
    simpa using hne
  rw [h, parseDec, if_neg hne2, hval 0]
  simp

theorem isPrefixOf_append_self (xs ys : Bytes) : xs.isPrefixOf (xs ++ ys) = true := by
  induction xs with
  | nil => simp [List.isPrefixOf]
  | cons x xs ih => simp [List.isPrefixOf, ih]

theorem parseChanCmd_head (head ds : Bytes) :
    parseChanCmd head (head ++ ds ++ [41]) = parseDec ds := by
  have h1 : head.isPrefixOf (head ++ ds ++ [41]) = true := by
    rw [List.append_assoc]
    exact isPrefixOf_append_self head _
  have h2 : (head ++ ds ++ [41]).getLast? = some 41 := by simp
  have h3 : ((head ++ ds ++ [41]).drop head.length).dropLast = ds := by
    rw [List.append_assoc, List.drop_left]
    simp
  rw [parseChanCmd, if_pos ⟨h1, h2⟩, h3]

theorem parseChanCmd_openCmd (c : Nat) : parseChanCmd (lit "OPEN (@") (openCmd c) = some c := by
  rw [openCmd, lit_tail, parseChanCmd_head, parseDec_fmtD]

theorem parseChanCmd_closeCmd (c : Nat) :
    parseChanCmd (lit "CLOSE (@") (closeCmd c) = some c := by
  rw [closeCmd, lit_tail, parseChanCmd_head, parseDec_fmtD]

theorem parseChanCmd_open_closeCmd (c : Nat) :
    parseChanCmd (lit "OPEN (@") (closeCmd c) = none := by
  have h : (lit "OPEN (@").isPrefixOf (closeCmd c) = false := by
    rw [closeCmd, lit_openHead, lit_closeHead]
    rfl
  simp [parseChanCmd, h]

theorem idealWrite_openCmd (c : Nat) (s : Finset Nat) :
    idealWrite (openCmd c) s = s.erase c := by
  have h1 : openCmd c ≠ lit "*RST" := by
    simp [openCmd, lit_openHead, lit_rst]
  have h2 : openCmd c ≠ lit "OPEN:ALL" := by
    simp [openCmd, lit_openHead, lit_openAll]
  have h3 : openCmd c ≠ lit "CLOSE?" := by
    simp [openCmd, lit_openHead, lit_closeQuery]
  simp only [idealWrite, h1, h2, h3, or_self, if_false, parseChanCmd_openCmd]

theorem idealWrite_closeCmd (c : Nat) (s : Finset Nat) :
    idealWrite (closeCmd c) s = insert c s := by
  have h1 : closeCmd c ≠ lit "*RST" := by
    simp [closeCmd, lit_closeHead, lit_rst]
  have h2 : closeCmd c ≠ lit "OPEN:ALL" := by
    simp [closeCmd, lit_closeHead, lit_openAll]
  have h3 : closeCmd c ≠ lit "CLOSE?" := by
    simp [closeCmd, lit_closeHead, lit_closeQuery]
  simp only [idealWrite, h1, h2, h3, or_self, if_false, parseChanCmd_open_closeCmd,
    parseChanCmd_closeCmd]

/-! ## The driver on the ideal instrument -/

theorem ideal_Reset_dev (resp : Finset Nat → Bytes) (k : Keithley Unit)
    (w : World (Finset Nat) Unit Unit) : (Reset (idealS46 resp) k w).2.dev = ∅ := by
  show idealWrite (lit "*RST") w.dev = ∅
  simp [idealWrite]

theorem ideal_OpenAllChans_dev (resp : Finset Nat → Bytes) (k : Keithley Unit)
    (w : World (Finset Nat) Unit Unit) : (OpenAllChans (idealS46 resp) k w).2.dev = ∅ := by
  show idealWrite (lit "OPEN:ALL") w.dev = ∅
  simp [idealWrite]

theorem ideal_OpenChan_dev (resp : Finset Nat → Bytes) (k : Keithley Unit) (c : Nat)
    (w : World (Finset Nat) Unit Unit) :
    (OpenChan (idealS46 resp) k c w).2.dev = w.dev.erase c :=
  idealWrite_openCmd c w.dev

theorem idealWrite_closeQuery (s : Finset Nat) : idealWrite (lit "CLOSE?") s = s := by
  have h1 : lit "CLOSE?" ≠ lit "*RST" := by decide
  have h2 : lit "CLOSE?" ≠ lit "OPEN:ALL" := by decide
  simp [idealWrite, h1, h2]

theorem ideal_ClosedChanList_dev (resp : Finset Nat → Bytes) (k : Keithley Unit) (ch : Nat)
    (w : World (Finset Nat) Unit Unit) :
    (ClosedChanList (idealS46 resp) k ch w).2.dev = w.dev := by
  simp [ClosedChanList, World.doWrite, World.doRead, idealS46, idealWrite_closeQuery]

theorem ideal_openLoop_dev (resp : Finset Nat → Bytes) (k : Keithley Unit) (f : Nat → Nat)
    (l : List Nat) (w : World (Finset Nat) Unit Unit) :
    (l.foldl (fun acc j => (OpenChan (idealS46 resp) k (f j) acc).2) w).dev =
      (l.map f).foldl (fun s c => s.erase c) w.dev := by
  induction l generalizing w with
  | nil => rfl
  | cons j l ih => rw [List.foldl_cons, ih, ideal_OpenChan_dev, List.map_cons, List.foldl_cons]

theorem mem_foldl_erase (l : List Nat) (s : Finset Nat) (c : Nat) :
    c ∈ l.foldl (fun s c => s.erase c) s ↔ c ∈ s ∧ c ∉ l := by
  induction l generalizing s with
  | nil => simp
  | cons x l ih =>
    rw [List.foldl_cons, ih, Finset.mem_erase, List.mem_cons]
    tauto

/-- The closed channels after `CloseChan(ch)` on the ideal instrument. -/
theorem mem_ideal_CloseChan_dev (resp : Finset Nat → Bytes) (k : Keithley Unit) (ch : Nat)
    (w : World (Finset Nat) Unit Unit) (c : Nat) :
    c ∈ (CloseChan (idealS46 resp) k ch w).2.dev ↔
      c = ch ∨ (c ∈ w.dev ∧ ¬ ((ch > 0 ∧ ch < 25) ∧ c ∈ openedChans ch)) := by
  rw [CloseChan_eq]
  show c ∈ idealWrite (closeCmd ch) _ ↔ _
  rw [idealWrite_closeCmd, Finset.mem_insert]
  by_cases hg : ch > 0 ∧ ch < 25
  · rw [if_pos hg, ideal_openLoop_dev, mem_foldl_erase]
    simp only [hg, and_self, true_and, openedChans]
  · rw [if_neg hg]
    simp only [hg, false_and, not_false_eq_true, and_true]

theorem groupSafe_iff (s : Finset Nat) :
    groupSafe s ↔ ∀ r ∈ multiPole, ∀ a ∈ s, ∀ b ∈ s,
      relayOf a = some r → relayOf b = some r → a = b := by
  unfold groupSafe
  refine forall₂_congr fun r _ => ?_
  rw [Finset.card_le_one]
  simp only [Finset.mem_filter]
  constructor
  · intro h a ha b hb hra hrb
    exact h a ⟨ha, hra⟩ b ⟨hb, hrb⟩
  · intro h a ha b hb
    exact h a ha.1 b hb.1 ha.2 hb.2

theorem groupSafe_empty : groupSafe ∅ := by
  rw [groupSafe_iff]
  intro r _ a ha
  simp at ha

theorem groupSafe_erase (s : Finset Nat) (c : Nat) (h : groupSafe s) :
    groupSafe (s.erase c) := by
  rw [groupSafe_iff] at h ⊢
  intro r hr a ha b hb
  exact h r hr a (Finset.mem_of_mem_erase ha) b (Finset.mem_of_mem_erase hb)

/-- A channel on a multi-pole relay is in the multi-pole range. -/
theorem multipole_range_of_relayOf (c : Nat) (r : Relay) (hr : r ∈ multiPole)
    (h : relayOf c = some r) : c > 0 ∧ c < 25 := by
  obtain ⟨g, hg, hiff⟩ := relayOf_multiPole r hr
  have := (hiff c).1 h
  omega

theorem ideal_CloseChan_groupSafe (resp : Finset Nat → Bytes) (k : Keithley Unit) (ch : Nat)
    (w : World (Finset Nat) Unit Unit) (h : groupSafe w.dev) :
    groupSafe (CloseChan (idealS46 resp) k ch w).2.dev := by
  rw [groupSafe_iff] at h ⊢
  intro r hr a ha b hb hra hrb
  rw [mem_ideal_CloseChan_dev] at ha hb
  have key : ∀ x, relayOf x = some r → relayOf ch = some r →
      ¬ ((ch > 0 ∧ ch < 25) ∧ x ∈ openedChans ch) → False := by
    intro x hx hc hn
    have hg := multipole_range_of_relayOf ch r hr hc
    obtain ⟨r0, _, hch, hiff⟩ := relayOf_of_multipole_range ch hg.1 (by omega)
    have hr0 : r0 = r := Option.some.inj (hch.symm.trans hc)
    subst hr0
    exact hn ⟨hg, (mem_openedChans ch hg.1 (by omega) x).2 ((hiff x).1 hx)⟩
  rcases ha with rfl | ⟨ha, hna⟩ <;> rcases hb with rfl | ⟨hb, hnb⟩
  · rfl
  · exact (key b hrb hra hnb).elim
  · exact (key a hra hrb hna).elim
  · exact h r hr a ha b hb hra hrb

theorem ideal_CloseChan_only_closed (resp : Finset Nat → Bytes) (k : Keithley Unit) (ch : Nat)
    (w : World (Finset Nat) Unit Unit) (h1 : 1 ≤ ch) (h24 : ch ≤ 24) :
    (CloseChan (idealS46 resp) k ch w).2.dev.filter (fun c => relayOf c = relayOf ch)
      = {ch} := by
  obtain ⟨r0, _, hch, hiff⟩ := relayOf_of_multipole_range ch h1 h24
  ext c
  rw [Finset.mem_filter, Finset.mem_singleton, mem_ideal_CloseChan_dev]
  constructor
  · rintro ⟨hc | ⟨_, hn⟩, hrel⟩
    · exact hc
    · rw [hch, hiff, ← mem_openedChans ch h1 h24] at hrel
      exact (hn ⟨⟨h1, by omega⟩, hrel⟩).elim
  · rintro rfl
    exact ⟨Or.inl rfl, rfl⟩

/-- C3. On the ideal instrument (state = the set of closed channels; `OPEN (@c)`
removes c, `CLOSE (@c)` adds c, `OPEN:ALL` and `*RST` empty the set, `CLOSE?` leaves
it unchanged, every call succeeds), "every multi-pole relay 1-6, 7-12, 13-18, 19-24
has at most one closed channel" is preserved by `Reset`, `OpenChan`, `OpenAllChans`,
`CloseChan` and `ClosedChanList` for every channel argument; and from any state,
after `CloseChan(ch)` with 1 <= ch <= 24, ch is the only closed channel of its
relay. -/
theorem ideal_groupSafe_preserved (resp : Finset Nat → Bytes) (k : Keithley Unit) (ch : Nat)
    (w : World (Finset Nat) Unit Unit) :
    (groupSafe w.dev →
      groupSafe (Reset (idealS46 resp) k w).2.dev
      ∧ groupSafe (OpenChan (idealS46 resp) k ch w).2.dev
      ∧ groupSafe (OpenAllChans (idealS46 resp) k w).2.dev
      ∧ groupSafe (CloseChan (idealS46 resp) k ch w).2.dev
      ∧ groupSafe (ClosedChanList (idealS46 resp) k ch w).2.dev)
    ∧ (1 ≤ ch → ch ≤ 24 →
      (CloseChan (idealS46 resp) k ch w).2.dev.filter (fun c => relayOf c = relayOf ch)
        = {ch}) := by
  refine ⟨fun h => ⟨?_, ?_, ?_, ideal_CloseChan_groupSafe resp k ch w h, ?_⟩,
    ideal_CloseChan_only_closed resp k ch w⟩
  · rw [ideal_Reset_dev]
    exact groupSafe_empty
  · rw [ideal_OpenChan_dev]
    exact groupSafe_erase _ _ h
  · rw [ideal_OpenAllChans_dev]
    exact groupSafe_empty
  · rw [ideal_ClosedChanList_dev]
    exact h

theorem ideal_groupSafe_preserved_witness :
    groupSafe ({7, 3, 30} : Finset Nat)
    ∧ groupSafe (CloseChan (idealS46 (fun _ => lit "(@)")) ⟨()⟩ 8 ⟨{7, 3, 30}, []⟩).2.dev
    ∧ (CloseChan (idealS46 (fun _ => lit "(@)")) ⟨()⟩ 8 ⟨{7, 9, 3, 30}, []⟩).2.dev.filter
        (fun c => relayOf c = relayOf 8) = {8} :=
  ⟨by decide,
   ((ideal_groupSafe_preserved (fun _ => lit "(@)") ⟨()⟩ 8 ⟨{7, 3, 30}, []⟩).1
      (by decide)).2.2.2.1,
   (ideal_groupSafe_preserved (fun _ => lit "(@)") ⟨()⟩ 8 ⟨{7, 9, 3, 30}, []⟩).2
      (by decide) (by decide)⟩

end S46
